import Mathlib

/-
Verification of the schema/query layer of the Flask-SQLAlchemy school app
(`src/part-3/app.py`).

The app declares three SQLAlchemy models (Course, Student, Teacher) backed
by a SQLite file, and a handful of routes that create, read, update and
delete rows through the ORM.  We embed the backing store as a record of
three tables (lists of rows) plus the auto-increment counters, and each
route handler as a function on that state.  The schema declared in the
source (`unique=True` on emails, `db.ForeignKey('course.id')` with
`nullable=False` on `Student.course_id`) is enforced by the storage engine
at commit time, so the mutating operations return `Except DbError State`:
a commit that would violate a constraint raises instead of persisting.
-/

namespace School

/-- Row of the `course` table: `id` (auto-increment primary key),
`name` (`nullable=False`), `description` (optional text). -/
structure Course where
  id : Nat
  name : String
  description : String
deriving Repr, DecidableEq

/-- Row of the `student` table: `id` (primary key), `name`
(`nullable=False`), `email` (`unique=True, nullable=False`) and
`course_id` (`db.ForeignKey('course.id'), nullable=False`). -/
structure Student where
  id : Nat
  name : String
  email : String
  course_id : Nat
deriving Repr, DecidableEq

/-- Row of the `teacher` table: `id`, `name`, `email` (`unique=True`). -/
structure Teacher where
  id : Nat
  name : String
  email : String
deriving Repr, DecidableEq

/-- The backing store (`school.db`): the three tables plus the
auto-increment counters for the two tables the routes insert into. -/
structure State where
  courses : List Course
  students : List Student
  teachers : List Teacher
  nextCourseId : Nat
  nextStudentId : Nat
deriving Repr, DecidableEq

/-- A fresh database: three empty tables, auto-increment counters at 1. -/
def initState : State :=
  { courses := [], students := [], teachers := [], nextCourseId := 1, nextStudentId := 1 }

/-- Errors surfaced by the store or the route layer: `notFound` is the
`get_or_404` outcome (HTTP 404); the other two are constraint violations
raised by the backing store at commit time. -/
inductive DbError where
  | notFound
  | uniqueEmail
  | fkViolation
deriving Repr, DecidableEq

/-- Route `index` (GET `/`): `Student.query.all()`. -/
def index (s : State) : List Student :=
  s.students

/-- Route `courses` (GET `/courses`): `Course.query.all()`. -/
def coursesRoute (s : State) : List Course :=
  s.courses

/-- SQLite `LIKE '%a%'` on a name: the pattern matches when the name
contains the letter `a`; SQLite's `LIKE` is case-insensitive on ASCII,
so `A` matches as well. -/
def likeA (nm : String) : Bool :=
  nm.toList.any (fun c => c == 'a' || c == 'A')

/-- Route `search_students` (GET `/search`):
`Student.query.filter(Student.name.like('%a%')).all()`.  The handler reads no request parameter: the
pattern `'%a%'` is fixed in the source, so the query string `q` sent with
the request is ignored. -/
def search_students (q : String) (s : State) : List Student :=
  let _ := q
  s.students.filter (fun st => likeA st.name)

/-- The ordering used by `order_by(Student.name)`: compare rows by name. -/
def nameLe (a b : Student) : Prop :=
  a.name ≤ b.name

instance : DecidableRel nameLe := fun a b => inferInstanceAs (Decidable (a.name ≤ b.name))

instance : IsTotal Student nameLe := ⟨fun a b => le_total a.name b.name⟩

instance : IsTrans Student nameLe := ⟨fun _ _ _ hab hbc => le_trans hab hbc⟩

/-- Route `sorted_students` (GET `/students/sorted`):
`Student.query.order_by(Student.name).all()`. -/
def sorted_students (s : State) : List Student :=
  s.students.insertionSort nameLe

/-- Route `limited_students` (GET `/students/limited`):
`Student.query.limit(2).all()`. -/
def limited_students (s : State) : List Student :=
  s.students.take 2

/-- The uniqueness check the store runs when committing an inserted
student: no existing row may already hold the email. -/
def emailTaken (e : String) (s : State) : Bool :=
  s.students.any (fun st => st.email == e)

/-- The foreign-key check the store runs at commit: `course_id` must
reference an existing `course.id`. -/
def courseExists (cid : Nat) (s : State) : Bool :=
  s.courses.any (fun c => c.id == cid)

/-- POST `/add` (route `add_student`): build a `Student` from the form
fields, `db.session.add`, `db.session.commit`.  The commit persists the
row with the next auto-increment id, or raises when the schema's
`unique=True` email or the `course.id` foreign key is violated. -/
def add_student (name email : String) (course_id : Nat) (s : State) :
    Except DbError State :=
  if emailTaken email s then .error .uniqueEmail
  else if ¬ courseExists course_id s then .error .fkViolation
  else .ok { s with
    students := s.students ++ [{ id := s.nextStudentId, name := name,
                                 email := email, course_id := course_id }],
    nextStudentId := s.nextStudentId + 1 }

/-- POST/GET `/edit/<id>` (route `edit_student`, POST branch):
`Student.query.get_or_404(id)` then assign `name`, `email`, `course_id`
on the fetched object and `db.session.commit()`.  The commit raises when
the new email collides with a different row or the new `course_id`
references no course. -/
def edit_student (id : Nat) (name email : String) (course_id : Nat)
    (s : State) : Except DbError State :=
  match s.students.find? (fun st => st.id == id) with
  | none => .error .notFound
  | some _ =>
    if s.students.any (fun st => st.id != id && st.email == email) then
      .error .uniqueEmail
    else if ¬ courseExists course_id s then .error .fkViolation
    else .ok { s with
      students := s.students.map (fun st =>
        if st.id == id then
          { st with name := name, email := email, course_id := course_id }
        else st) }

/-- GET `/delete/<id>` (route `delete_student`):
`Student.query.get_or_404(id)`, `db.session.delete(student)`,
`db.session.commit()` — the row with that primary key is removed. -/
def delete_student (id : Nat) (s : State) : Except DbError State :=
  match s.students.find? (fun st => st.id == id) with
  | none => .error .notFound
  | some _ => .ok { s with students := s.students.filter (fun st => st.id != id) }

/-- POST `/add-course` (route `add_course`): build a `Course` from the
form (description optional, defaulting to an empty string), add, commit. -/
def add_course (name description : String) (s : State) : Except DbError State :=
  .ok { s with
    courses := s.courses ++ [{ id := s.nextCourseId, name := name,
                               description := description }],
    nextCourseId := s.nextCourseId + 1 }

/-- The three sample courses `init_db` seeds, with the auto-increment ids
they receive starting from counter `n`. -/
def sampleCourses (n : Nat) : List Course :=
  [ { id := n, name := "Python Basics",
      description := "Learn Python programming fundamentals" },
    { id := n + 1, name := "Web Development",
      description := "HTML, CSS, JavaScript and Flask" },
    { id := n + 2, name := "Data Science",
      description := "Data analysis with Python" } ]

/-- Bootstrap `init_db`: create tables, then, if `Course.query.count() == 0`, add
the three sample courses and commit; otherwise change nothing. -/
def init_db (s : State) : State :=
  if s.courses.length == 0 then
    { s with courses := s.courses ++ sampleCourses s.nextCourseId,
             nextCourseId := s.nextCourseId + 3 }
  else s

/-- One request to the app (or the `init_db` bootstrap).  The read-only
routes are included so that reachability ranges over every operation the
program performs on the store. -/
inductive Op where
  | addStudent (name email : String) (course_id : Nat)
  | editStudent (id : Nat) (name email : String) (course_id : Nat)
  | deleteStudent (id : Nat)
  | addCourse (name description : String)
  | initDb
  | indexOp
  | coursesOp
  | searchOp (q : String)
  | sortedOp
  | limitedOp
deriving Repr, DecidableEq

/-- Effect of one operation on the store.  A commit that raises (constraint
violation, or `get_or_404` aborting with 404 before any mutation) leaves
the store as it was; the read-only routes never touch it. -/
def applyOp (op : Op) (s : State) : State :=
  match op with
  | .addStudent n e c =>
    match add_student n e c s with
    | .ok s' => s'
    | .error _ => s
  | .editStudent i n e c =>
    match edit_student i n e c s with
    | .ok s' => s'
    | .error _ => s
  | .deleteStudent i =>
    match delete_student i s with
    | .ok s' => s'
    | .error _ => s
  | .addCourse n d =>
    match add_course n d s with
    | .ok s' => s'
    | .error _ => s
  | .initDb => init_db s
  | .indexOp => s
  | .coursesOp => s
  | .searchOp _ => s
  | .sortedOp => s
  | .limitedOp => s

/-- States the program can reach: the fresh database, closed under
running any operation. -/
inductive Reachable : State → Prop where
  | init : Reachable initState
  | step (op : Op) {s : State} : Reachable s → Reachable (applyOp op s)

/-- The foreign-key invariant of §3: every student's `course_id` resolves
to an existing course row. -/
def fkOk (s : State) : Bool :=
  s.students.all (fun st => s.courses.any (fun c => c.id == st.course_id))

/-- Substring containment, spelling out what a `LIKE '%q%'` match would
test: some contiguous run of `s` equals `q`. -/
def hasSubstr (s q : String) : Bool :=
  (List.range (s.toList.length + 1)).any
    (fun i => (s.toList.drop i).take q.toList.length == q.toList)

/-- Modelled from the spec: the behavior the spec's words "GET `/search`
(substring filter on student name)" describe — return exactly the students
whose name contains the request's search substring `q`.  This is the
spec-side reading of the route, to be compared with `search_students`
above, which embeds the source. -/
def searchSpec (q : String) (s : State) : List Student :=
  s.students.filter (fun st => hasSubstr st.name q)

/-- A sample populated store used by the concrete witnesses: the three
seeded courses plus two students. -/
def exState : State :=
  { courses := sampleCourses 1,
    students := [ { id := 1, name := "Ann", email := "ann@example.com", course_id := 1 },
                  { id := 2, name := "Bob", email := "bob@example.com", course_id := 2 } ],
    teachers := [],
    nextCourseId := 4,
    nextStudentId := 3 }

/-- The store obtained from `exState` by editing student 1 (new name,
email and course). -/
def exEdited : State :=
  { exState with
    students := [ { id := 1, name := "Anna", email := "anna@example.com", course_id := 2 },
                  { id := 2, name := "Bob", email := "bob@example.com", course_id := 2 } ] }

/-- A concrete reachable store: bootstrap, then add one student. -/
def exReach : State :=
  applyOp (Op.addStudent "Ann" "ann@example.com" 1) (applyOp Op.initDb initState)

/-- C6: for every store state, whatever the number of student rows,
`/students/limited` returns at most 2 records. -/
theorem limited_students_length_le_two (s : State) :
    (limited_students s).length ≤ 2 := by
  simp [limited_students, List.length_take]

/-- C9: the read-only routes — GET `/`, GET `/courses`, GET `/search`,
GET `/students/sorted`, GET `/students/limited` — leave the backing store
exactly as it was. -/
theorem read_routes_preserve_state (q : String) (s : State) :
    applyOp Op.indexOp s = s ∧ applyOp Op.coursesOp s = s ∧
    applyOp (Op.searchOp q) s = s ∧ applyOp Op.sortedOp s = s ∧
    applyOp Op.limitedOp s = s :=
  ⟨rfl, rfl, rfl, rfl, rfl⟩

/-- C10: `init_db` seeds exactly the three sample courses when the course
table is empty, inserts nothing when a course already exists, and is
idempotent: running it twice yields the same store as running it once. -/
theorem init_db_idempotent (s : State) :
    ((init_db s).courses =
      if s.courses.isEmpty then sampleCourses s.nextCourseId else s.courses) ∧
    (init_db s).students = s.students ∧ (init_db s).teachers = s.teachers ∧
    init_db (init_db s) = init_db s := by
  cases hc : s.courses with
  | nil =>
    refine ⟨?_, ?_, ?_, ?_⟩ <;> simp [init_db, hc, sampleCourses]
  | cons a l =>
    refine ⟨?_, ?_, ?_, ?_⟩ <;> simp [init_db, hc]

/-- C2: when a student with email `e` is already in the store, adding a
second student with the same email fails at persist time — the commit
raises the unique-constraint error of the backing store instead of
succeeding. -/
theorem add_student_duplicate_email_fails (s : State) (n e : String) (c : Nat)
    (h : ∃ st ∈ s.students, st.email = e) :
    add_student n e c s = Except.error DbError.uniqueEmail := by
  have ht : emailTaken e s = true := by
    rcases h with ⟨st, hmem, heq⟩
    exact List.any_eq_true.mpr ⟨st, hmem, by simp [heq]⟩
  simp [add_student, ht]

/-- Witness for C2 on a concrete store: `exState` already holds a student
with email `ann@example.com`, and adding another with that email errors. -/
theorem add_student_duplicate_email_fails_witness :
    (∃ st ∈ exState.students, st.email = "ann@example.com") ∧
    add_student "Bea" "ann@example.com" 1 exState
      = Except.error DbError.uniqueEmail :=
  ⟨by decide, add_student_duplicate_email_fails exState "Bea" "ann@example.com" 1 (by decide)⟩

/-- C3: `/edit/<id>` and `/delete/<id>` signal the 404 outcome exactly
when no student with identifier `id` is in the store; when one exists,
neither route produces that error. -/
theorem edit_delete_not_found_iff (s : State) (id : Nat) (n e : String) (c : Nat) :
    (edit_student id n e c s = Except.error DbError.notFound
       ↔ ¬ ∃ st ∈ s.students, st.id = id) ∧
    (delete_student id s = Except.error DbError.notFound
       ↔ ¬ ∃ st ∈ s.students, st.id = id) := by
  have hfind : s.students.find? (fun st => st.id == id) = none
      ↔ ¬ ∃ st ∈ s.students, st.id = id := by
    rw [List.find?_eq_none]
    constructor
    · rintro hall ⟨st, hmem, hid⟩
      have hc := hall st hmem
      simp [hid] at hc
    · intro hno st hmem hbeq
      exact hno ⟨st, hmem, by simpa using hbeq⟩
  constructor
  · cases hf : s.students.find? (fun st => st.id == id) with
    | none =>
      simp only [edit_student, hf]
      exact iff_of_true trivial (hfind.mp hf)
    | some st =>
      simp only [edit_student, hf]
      constructor
      · intro hres
        by_cases hdup : s.students.any (fun t => t.id != id && t.email == e)
        · simp [hdup] at hres
        · by_cases hcourse : courseExists c s
          · simp [hdup, hcourse] at hres
          · simp [hdup, hcourse] at hres
      · intro hno
        rw [hfind.mpr hno] at hf
        exact absurd hf (by simp)
  · cases hf : s.students.find? (fun st => st.id == id) with
    | none =>
      simp only [delete_student, hf]
      exact iff_of_true trivial (hfind.mp hf)
    | some st =>
      simp only [delete_student, hf]
      constructor
      · intro hres
        exact absurd hres (by simp)
      · intro hno
        rw [hfind.mpr hno] at hf
        exact absurd hf (by simp)

/-- C5: deleting an existing student commits, and the subsequent GET `/`
listing contains no student with that identifier while every other
student still appears (and nothing new appears). -/
theorem delete_student_removes_from_index (s : State) (id : Nat)
    (h : ∃ st ∈ s.students, st.id = id) :
    ∃ s', delete_student id s = Except.ok s' ∧
      (∀ st ∈ index s', st.id ≠ id) ∧
      (∀ st ∈ s.students, st.id ≠ id → st ∈ index s') ∧
      (∀ st ∈ index s', st ∈ s.students) := by
  rcases h with ⟨st₀, hmem, hid⟩
  have hf : ∃ u, s.students.find? (fun st => st.id == id) = some u := by
    have : s.students.find? (fun st => st.id == id) ≠ none := by
      rw [Ne, List.find?_eq_none]
      intro hall
      have hc := hall st₀ hmem
      simp [hid] at hc
    exact Option.ne_none_iff_exists'.mp this
  rcases hf with ⟨u, hu⟩
  refine ⟨{ s with students := s.students.filter (fun st => st.id != id) },
          by simp [delete_student, hu], ?_, ?_, ?_⟩
  · intro st hst
    simp only [index, List.mem_filter] at hst
    simpa using hst.2
  · intro st hst hne
    simp only [index, List.mem_filter]
    exact ⟨hst, by simpa using hne⟩
  · intro st hst
    simp only [index, List.mem_filter] at hst
    exact hst.1

/-- Witness for C5 on a concrete store: deleting student 1 from `exState`
succeeds and the listing afterwards satisfies the three conditions. -/
theorem delete_student_removes_from_index_witness :
    (∃ st ∈ exState.students, st.id = 1) ∧
    (∃ s', delete_student 1 exState = Except.ok s' ∧
      (∀ st ∈ index s', st.id ≠ 1) ∧
      (∀ st ∈ exState.students, st.id ≠ 1 → st ∈ index s') ∧
      (∀ st ∈ index s', st ∈ exState.students)) :=
  ⟨by decide, delete_student_removes_from_index exState 1 (by decide)⟩

/-- C7: `/students/sorted` returns a permutation of the student table,
ordered so that each record's name is less than or equal to the next
record's name. -/
theorem sorted_students_sorted_perm (s : State) :
    (sorted_students s).Perm s.students ∧
    List.Pairwise (fun a b => a.name ≤ b.name) (sorted_students s) :=
  ⟨List.perm_insertionSort nameLe s.students,
   List.sorted_insertionSort nameLe s.students⟩

/-- Refutation of C8 as stated: the route does not filter by the
request's search substring.  On the concrete store `exState` with search
substring `"b"`, the spec-side filter keeps exactly the student named
`Bob`, but the route returns the student named `Ann` instead — its filter
is the fixed pattern `'%a%'` from the source. -/
theorem search_students_ne_searchSpec :
    search_students "b" exState ≠ searchSpec "b" exState := by
  decide

/-- C8 amended: GET `/search` ignores the request's search string and
filters by the fixed pattern `'%a%'`: it returns exactly those students
whose name contains the letter `a` (case-insensitively), and the result
does not depend on the submitted query string. -/
theorem search_students_fixed_pattern (q : String) (s : State) :
    (∀ st, st ∈ search_students q s ↔ st ∈ s.students ∧ likeA st.name = true) ∧
    search_students q s = search_students "" s := by
  refine ⟨fun st => ?_, rfl⟩
  simp [search_students, List.mem_filter]

/-- C4: a successful POST to `/edit/<id>` updates exactly the name, email
and course reference of exactly the student with identifier `id`, keeping
its identifier; every other student row, the course and teacher tables and
the auto-increment counters are untouched. -/
theorem edit_student_frame (s s' : State) (id : Nat) (n e : String) (c : Nat)
    (h : edit_student id n e c s = Except.ok s') :
    s'.courses = s.courses ∧ s'.teachers = s.teachers ∧
    s'.nextCourseId = s.nextCourseId ∧ s'.nextStudentId = s.nextStudentId ∧
    (∀ st ∈ s.students, st.id ≠ id → st ∈ s'.students) ∧
    (∀ st ∈ s.students, st.id = id →
      ({ id := st.id, name := n, email := e, course_id := c } : Student) ∈ s'.students) ∧
    (∀ st' ∈ s'.students,
      (st'.id ≠ id → st' ∈ s.students) ∧
      (st'.id = id → st'.name = n ∧ st'.email = e ∧ st'.course_id = c ∧
        ∃ st ∈ s.students, st.id = st'.id)) := by
  unfold edit_student at h
  cases hf : s.students.find? (fun st => st.id == id) with
  | none =>
    rw [hf] at h
    exact absurd h (by simp)
  | some u =>
    rw [hf] at h
    by_cases hdup : s.students.any (fun t => t.id != id && t.email == e)
    · simp [hdup] at h
    · by_cases hcourse : courseExists c s
      · simp only [hdup, Bool.false_eq_true, if_false, hcourse, not_true,
                   if_true, ite_false, ite_true, Except.ok.injEq] at h
        subst h
        refine ⟨rfl, rfl, rfl, rfl, ?_, ?_, ?_⟩
        · intro st hst hne
          exact List.mem_map.mpr ⟨st, hst, by simp [hne]⟩
        · intro st hst hid
          exact List.mem_map.mpr ⟨st, hst, by simp [hid]⟩
        · intro st' hst'
          rcases List.mem_map.mp hst' with ⟨st, hst, heq⟩
          by_cases hb : st.id = id
          · rw [if_pos (show (st.id == id) = true by simp [hb])] at heq
            subst heq
            constructor
            · intro hne
              exact absurd hb hne
            · intro _
              exact ⟨rfl, rfl, rfl, st, hst, rfl⟩
          · rw [if_neg (show ¬ (st.id == id) = true by simp [hb])] at heq
            subst heq
            constructor
            · intro _
              exact hst
            · intro hideq
              exact absurd hideq hb
      · simp [hdup, hcourse] at h

/-- Witness for C4 on a concrete store: editing student 1 of `exState`
succeeds, producing `exEdited`, and the frame conditions hold there. -/
theorem edit_student_frame_witness :
    edit_student 1 "Anna" "anna@example.com" 2 exState = Except.ok exEdited ∧
    (exEdited.courses = exState.courses ∧ exEdited.teachers = exState.teachers ∧
     exEdited.nextCourseId = exState.nextCourseId ∧
     exEdited.nextStudentId = exState.nextStudentId ∧
     (∀ st ∈ exState.students, st.id ≠ 1 → st ∈ exEdited.students) ∧
     (∀ st ∈ exState.students, st.id = 1 →
       ({ id := st.id, name := "Anna", email := "anna@example.com",
          course_id := 2 } : Student) ∈ exEdited.students) ∧
     (∀ st' ∈ exEdited.students,
       (st'.id ≠ 1 → st' ∈ exState.students) ∧
       (st'.id = 1 → st'.name = "Anna" ∧ st'.email = "anna@example.com" ∧
         st'.course_id = 2 ∧ ∃ st ∈ exState.students, st.id = st'.id))) := by
  have h0 : edit_student 1 "Anna" "anna@example.com" 2 exState
      = Except.ok exEdited := by rfl
  exact ⟨h0, edit_student_frame exState exEdited 1 "Anna" "anna@example.com" 2 h0⟩

lemma any_course_append {p : Course → Bool} (l l' : List Course)
    (h : l.any p = true) : (l ++ l').any p = true := by
  simp [List.any_append, h]

lemma fkOk_applyOp (op : Op) (s : State) (h : fkOk s = true) :
    fkOk (applyOp op s) = true := by
  cases op with
  | addStudent n e c =>
    simp only [applyOp]
    by_cases h1 : emailTaken e s
    · simpa [add_student, h1] using h
    · by_cases h2 : courseExists c s
      · have hok : add_student n e c s = Except.ok { s with
            students := s.students ++ [{ id := s.nextStudentId, name := n,
                                         email := e, course_id := c }],
            nextStudentId := s.nextStudentId + 1 } := by
          simp [add_student, h1, h2]
        rw [hok]
        rw [fkOk, List.all_eq_true] at h ⊢
        intro st hst
        rcases List.mem_append.mp hst with hmem | hmem
        · exact h st hmem
        · have hst' : st = { id := s.nextStudentId, name := n, email := e,
                             course_id := c } := by simpa using hmem
          subst hst'
          exact h2
      · simpa [add_student, h1, h2] using h
  | editStudent i n e c =>
    simp only [applyOp]
    cases hf : s.students.find? (fun st => st.id == i) with
    | none => simpa [edit_student, hf] using h
    | some u =>
      by_cases hdup : s.students.any (fun t => t.id != i && t.email == e)
      · simpa [edit_student, hf, hdup] using h
      · by_cases hcourse : courseExists c s
        · have hok : edit_student i n e c s = Except.ok { s with
              students := s.students.map (fun st =>
                if st.id == i then
                  { st with name := n, email := e, course_id := c }
                else st) } := by
            simp [edit_student, hf, hdup, hcourse]
          rw [hok]
          rw [fkOk, List.all_eq_true] at h ⊢
          intro st hst
          rcases List.mem_map.mp hst with ⟨st₀, hmem, heq⟩
          by_cases hb : st₀.id = i
          · rw [if_pos (show (st₀.id == i) = true by simp [hb])] at heq
            subst heq
            exact hcourse
          · rw [if_neg (show ¬ (st₀.id == i) = true by simp [hb])] at heq
            subst heq
            exact h st₀ hmem
        · simpa [edit_student, hf, hdup, hcourse] using h
  | deleteStudent i =>
    simp only [applyOp]
    cases hf : s.students.find? (fun st => st.id == i) with
    | none => simpa [delete_student, hf] using h
    | some u =>
      have hok : delete_student i s = Except.ok
          { s with students := s.students.filter (fun st => st.id != i) } := by
        simp [delete_student, hf]
      rw [hok]
      rw [fkOk, List.all_eq_true] at h ⊢
      intro st hst
      exact h st (List.mem_of_mem_filter hst)
  | addCourse n d =>
    simp only [applyOp, add_course]
    rw [fkOk, List.all_eq_true] at h ⊢
    intro st hst
    exact any_course_append _ _ (h st hst)
  | initDb =>
    simp only [applyOp, init_db]
    by_cases hc : s.courses.length == 0
    · rw [if_pos hc]
      rw [fkOk, List.all_eq_true] at h ⊢
      intro st hst
      exact any_course_append _ _ (h st hst)
    · rw [if_neg hc]
      exact h
  | indexOp => exact h
  | coursesOp => exact h
  | searchOp q => exact h
  | sortedOp => exact h
  | limitedOp => exact h

/-- C1: in every state the program can reach — starting from a fresh
database and running any sequence of routes and the bootstrap — every
student row's `course_id` resolves to an existing course row, so in
particular every student created through `/add` and committed references
an existing course. -/
theorem reachable_students_reference_course (s : State) (h : Reachable s) :
    ∀ st ∈ s.students, ∃ cr ∈ s.courses, cr.id = st.course_id := by
  have hfk : fkOk s = true := by
    induction h with
    | init => rfl
    | step op hr ih => exact fkOk_applyOp op _ ih
  intro st hst
  have hany := List.all_eq_true.mp hfk st hst
  rcases List.any_eq_true.mp hany with ⟨cr, hcr, hbeq⟩
  exact ⟨cr, hcr, by simpa using hbeq⟩

/-- Witness for C1: the concrete store reached by running the bootstrap
and then adding one student is reachable, and its students all reference
existing courses. -/
theorem reachable_students_reference_course_witness :
    Reachable exReach ∧
    ∀ st ∈ exReach.students, ∃ cr ∈ exReach.courses, cr.id = st.course_id := by
  have hr : Reachable exReach :=
    Reachable.step (Op.addStudent "Ann" "ann@example.com" 1)
      (Reachable.step Op.initDb Reachable.init)
  exact ⟨hr, reachable_students_reference_course exReach hr⟩

end School
